import Mathlib

/-!
Shallow embedding of creduce's `SimplifyCallExpr` transformation
(`src/SimplifyCallExpr.cpp`).

The transformation selects the K-th call expression of a translation unit
(1-based, in traversal order over function definitions) and rewrites its
source range into a parenthesized comma expression: scalar arguments become
the literal `0`, struct/union arguments become freshly named global temp
variables whose declarations are inserted before the enclosing function, and
a trailing operand stands in for the return value.

Clang AST nodes are modelled by the attributes the transformation reads:
a type is its classification (`void` / `structure` / `union` / other scalar)
together with its printed type string; an argument expression is its type;
a call expression is its argument list, its type (the return type of the
call) and an abstract source-range identifier; a function declaration is an
abstract identifier plus the list of call expressions inside its body in
traversal order.  Buffer mutation is modelled as the list of edit operations
issued to the rewriting engine, in order.
-/

/-- Classification of a clang type as tested by the transformation:
`isVoidType`, `isStructureType`, `isUnionType`, or any other (scalar) type. -/
inductive TypeKind where
  | void
  | structure_
  | union_
  | scalar
  deriving DecidableEq, Repr

/-- A clang `QualType`, reduced to the two attributes the transformation
reads: its kind and its printed type string (e.g. "struct Z", "int *"). -/
structure QualType where
  kind : TypeKind
  printed : String
  deriving DecidableEq, Repr

/-- `Type::isVoidType()`. -/
def QualType.isVoidType (t : QualType) : Bool := t.kind = TypeKind.void

/-- `Type::isStructureType()`. -/
def QualType.isStructureType (t : QualType) : Bool := t.kind = TypeKind.structure_

/-- `Type::isUnionType()`. -/
def QualType.isUnionType (t : QualType) : Bool := t.kind = TypeKind.union_

/-- An argument expression, reduced to its static type (`Expr::getType()`). -/
structure Expr where
  type : QualType
  deriving DecidableEq, Repr

/-- A `CallExpr`: its arguments (`getArg(0..NumArg-1)` in order), its type
(`CallExpr::getType()`, the call's return type) and an abstract identifier
for its source range. -/
structure CallExpr where
  args : List Expr
  retType : QualType
  range : Nat
  deriving DecidableEq, Repr

/-- A `FunctionDecl` that is a definition: an abstract identifier and the
call expressions inside its body, in the order `RecursiveASTVisitor`
reaches them. -/
structure FunctionDecl where
  fid : Nat
  body : List CallExpr
  deriving DecidableEq, Repr

/-- A top-level declaration as discriminated by `HandleTopLevelDecl`:
a `FunctionDecl` that is a definition (traversed), a function declaration
that is not a definition (skipped), or any other declaration (skipped). -/
inductive TopLevelDecl where
  | funcDef (fd : FunctionDecl)
  | funcProto (fd : FunctionDecl)
  | otherDecl
  deriving DecidableEq, Repr

/-- One edit issued to the rewrite engine: either
`RewriteUtils::insertStringBeforeFunc(FD, text)` or
`RewriteUtils::replaceExpr(E, text)` on the expression's source range. -/
inductive Edit where
  | insertBeforeFunc (fid : Nat) (text : String)
  | replaceRange (range : Nat) (text : String)
  deriving DecidableEq, Repr

/-- Whether an edit is the call-site replacement (as opposed to a
declaration insertion). -/
def Edit.isReplace : Edit → Bool
  | Edit.replaceRange _ _ => true
  | _ => false

/-- Modelled from the spec: `RewriteUtils::getTmpVarNamePrefix()` lives in
`RewriteUtils.cpp`, which is not part of this repository slice; the spec's
scenarios name the generated variables `tmp_var_N`. -/
def getTmpVarNamePrefix : String := "tmp_var_"

/-- Modelled from the spec: `RewriteUtils::getTmpTransName(postfix, name)`
(from `RewriteUtils.cpp`, outside this slice) forms a temp-variable name
from the tool's prefix and a numeric suffix. -/
def getTmpTransName (n : Nat) : String := getTmpVarNamePrefix ++ toString n

/-- Modelled from the spec: `QualType::getAsStringInternal(name, policy)`
(clang library) prints the declaration text `<type> <name>`, with the type
string taken verbatim; the spec gives the emitted declaration as
"`<type> <name>;\n`". -/
def getAsStringInternal (t : QualType) (name : String) : String :=
  t.printed ++ " " ++ name

/-- Mutable state of the rewriter part of `SimplifyCallExpr`:
`NamePostfix` (the name-allocation counter), and the edits issued so far.
`allocated` is ghost instrumentation recording, in order, the value read
from `NamePostfix` at each of the two `NamePostfix++` allocation sites. -/
structure RWState where
  namePostfix : Nat
  allocated : List Nat
  edits : List Edit
  deriving DecidableEq, Repr

/-- The two-line allocation idiom `getTmpTransName(NamePostfix, Str);
NamePostfix++;`: returns the fresh name and advances the counter
(recording the used suffix in the ghost trace). -/
def allocTmpName (s : RWState) : String × RWState :=
  (getTmpTransName s.namePostfix,
   { s with namePostfix := s.namePostfix + 1,
            allocated := s.allocated ++ [s.namePostfix] })

/-- `RewriteUtils::insertStringBeforeFunc(CurrentFD, str, ...)`: issue a
declaration-insertion edit anchored before the function. -/
def insertStringBeforeFunc (fd : FunctionDecl) (str : String) (s : RWState) :
    RWState :=
  { s with edits := s.edits ++ [Edit.insertBeforeFunc fd.fid str] }

/-- `RewriteUtils::replaceExpr(TheCallExpr, str, ...)`: issue the
replacement edit on the call expression's source range. -/
def replaceExpr (ce : CallExpr) (str : String) (s : RWState) : RWState :=
  { s with edits := s.edits ++ [Edit.replaceRange ce.range str] }

/-- `SimplifyCallExpr::handleOneArgStr(Arg, Str)`: `Str` starts as "0"; if
the argument's type is neither a union nor a structure this is returned
unchanged.  Otherwise a temp name is allocated, the declaration
`<type> <name>;\n` is inserted before `CurrentFD`, and the name is the
operand text. -/
def handleOneArgStr (fd : FunctionDecl) (arg : Expr) (s : RWState) :
    String × RWState :=
  if !arg.type.isUnionType && !arg.type.isStructureType then
    ("0", s)
  else
    let (name, s1) := allocTmpName s
    let tmpVarStr := getAsStringInternal arg.type name ++ ";\n"
    (name, insertStringBeforeFunc fd tmpVarStr s1)

/-- The `for (I = 1; I < NumArg; ++I)` loop of `replaceCallExpr`: handle
each remaining argument and append `"," + ArgStr` to the accumulated
comma string. -/
def processRestArgs (fd : FunctionDecl) :
    List Expr → String → RWState → String × RWState
  | [], acc, s => (acc, s)
  | a :: rest, acc, s =>
      let (argStr, s1) := handleOneArgStr fd a s
      processRestArgs fd rest (acc ++ "," ++ argStr) s1

/-- `SimplifyCallExpr::replaceCallExpr()`: if the call has zero arguments,
replace its range with the empty comma string.  Otherwise build
`"(" + arg0`, then `",argI"` for each further argument, then the trailing
result operand chosen by the call's return type (nothing for void, a fresh
declared temp variable for struct/union, literal `0` otherwise), close with
`")"`, and replace the call's source range with the result. -/
def replaceCallExpr (fd : FunctionDecl) (ce : CallExpr) (s : RWState) :
    RWState :=
  match ce.args with
  | [] => replaceExpr ce "" s
  | a0 :: rest =>
      let (argStr, s1) := handleOneArgStr fd a0 s
      let (commaStr1, s2) := processRestArgs fd rest ("(" ++ argStr) s1
      let (commaStr2, s3) :=
        if ce.retType.isVoidType then
          (commaStr1, s2)
        else if ce.retType.isUnionType || ce.retType.isStructureType then
          let (rvName, s2a) := allocTmpName s2
          let rvStr := getAsStringInternal ce.retType rvName ++ ";\n"
          (commaStr1 ++ "," ++ rvName, insertStringBeforeFunc fd rvStr s2a)
        else
          (commaStr1 ++ ",0", s2)
      replaceExpr ce (commaStr2 ++ ")") s3

/-- Mutable state shared by `SimplifyCallExprVisitor` and the consumer
during the selection traversal: `ValidInstanceNum` (running 1-based count
of call expressions), the visitor's `CurrentFD` member, and the consumer's
recorded `TheCallExpr` and `CurrentFD`. -/
structure VState where
  validInstanceNum : Nat
  visitorCurrentFD : Option FunctionDecl
  theCallExpr : Option CallExpr
  consumerFD : Option FunctionDecl
  deriving DecidableEq, Repr

/-- `SimplifyCallExprVisitor::VisitCallExpr(CE)`: increment
`ValidInstanceNum`; when it equals `TransformationCounter`, record the call
expression and the visitor's current function in the consumer. -/
def visitCallExpr (counter : Nat) (ce : CallExpr) (s : VState) : VState :=
  let s1 := { s with validInstanceNum := s.validInstanceNum + 1 }
  if counter ≠ s1.validInstanceNum then
    s1
  else
    { s1 with theCallExpr := some ce, consumerFD := s1.visitorCurrentFD }

/-- `SimplifyCallExprVisitor::VisitFunctionDecl(FD)`: remember the function
currently being traversed. -/
def visitFunctionDecl (fd : FunctionDecl) (s : VState) : VState :=
  { s with visitorCurrentFD := some fd }

/-- The visitor's walk over the call expressions inside one function body,
in traversal order. -/
def visitCalls (counter : Nat) : List CallExpr → VState → VState
  | [], s => s
  | c :: cs, s => visitCalls counter cs (visitCallExpr counter c s)

/-- `CollectionVisitor->TraverseDecl(FD)` on a function definition: the
`FunctionDecl` node itself is visited before any call expression inside its
body. -/
def traverseFuncDef (counter : Nat) (fd : FunctionDecl) (s : VState) :
    VState :=
  visitCalls counter fd.body (visitFunctionDecl fd s)

/-- `SimplifyCallExpr::HandleTopLevelDecl`, folded over all top-level
declarations of the unit: only function declarations that are definitions
are traversed. -/
def handleTopLevelDecls (counter : Nat) : List TopLevelDecl → VState → VState
  | [], s => s
  | TopLevelDecl.funcDef fd :: ds, s =>
      handleTopLevelDecls counter ds (traverseFuncDef counter fd s)
  | TopLevelDecl.funcProto _ :: ds, s => handleTopLevelDecls counter ds s
  | TopLevelDecl.otherDecl :: ds, s => handleTopLevelDecls counter ds s

/-- Initial visitor/consumer state (`ValidInstanceNum = 0`, all the
recorded pointers NULL). -/
def initVState : VState :=
  { validInstanceNum := 0, visitorCurrentFD := none,
    theCallExpr := none, consumerFD := none }

/-- The whole selection phase over a translation unit's top-level
declarations. -/
def runSelector (counter : Nat) (ds : List TopLevelDecl) : VState :=
  handleTopLevelDecls counter ds initVState

/-- All call expressions of the unit in traversal order (the order in which
`ValidInstanceNum` counts them). -/
def allCalls (ds : List TopLevelDecl) : List CallExpr :=
  ds.flatMap fun d =>
    match d with
    | TopLevelDecl.funcDef fd => fd.body
    | _ => []

/-- For each counted call expression, the function definition being
traversed when it was visited (positionally parallel to `allCalls`). -/
def enclosingFDs (ds : List TopLevelDecl) : List FunctionDecl :=
  ds.flatMap fun d =>
    match d with
    | TopLevelDecl.funcDef fd => fd.body.map fun _ => fd
    | _ => []

/-- A translation unit: its top-level declarations, plus the result of the
name-uniqueness query.  `maxNamePostfix` models
`NameQueryWrap->getMaxNamePostfix()` (`TransNameQueryWrap`, outside this
slice): the maximum numeric suffix among existing identifiers carrying the
temp-name prefix. -/
structure TransUnit where
  decls : List TopLevelDecl
  maxNamePostfix : Nat
  deriving DecidableEq, Repr

/-- The run-level error outcomes: `TransMaxInstanceError` when the target
ordinal exceeds the count, or one of the two `TransAssert` failures before
the rewrite. -/
inductive TransErrorKind where
  | maxInstance
  | assertNullCall
  | assertNullFD
  deriving DecidableEq, Repr

/-- Observable outcome of one run: the error (if any), the edits issued to
the buffer, and the ghost trace of allocated name suffixes. -/
structure RunOutcome where
  transError : Option TransErrorKind
  edits : List Edit
  allocated : List Nat
  deriving DecidableEq, Repr

/-- `SimplifyCallExpr::HandleTranslationUnit`: after the selection
traversal, bail out with `TransMaxInstanceError` when the counter exceeds
`ValidInstanceNum`; otherwise the two `TransAssert`s check the recorded
pointers, `NamePostfix` is seeded to `getMaxNamePostfix() + 1`, and
`replaceCallExpr` commits the rewrite.  (The trailing diagnostics check
belongs to the external engine and has no observable effect here.) -/
def handleTranslationUnit (counter : Nat) (tu : TransUnit) : RunOutcome :=
  let sel := runSelector counter tu.decls
  if counter > sel.validInstanceNum then
    { transError := some TransErrorKind.maxInstance, edits := [],
      allocated := [] }
  else
    match sel.theCallExpr with
    | none =>
        { transError := some TransErrorKind.assertNullCall, edits := [],
          allocated := [] }
    | some ce =>
        match sel.consumerFD with
        | none =>
            { transError := some TransErrorKind.assertNullFD, edits := [],
              allocated := [] }
        | some fd =>
            let s := replaceCallExpr fd ce
              { namePostfix := tu.maxNamePostfix + 1, allocated := [],
                edits := [] }
            { transError := none, edits := s.edits, allocated := s.allocated }

/-- The test `isUnionType() || isStructureType()` by which the
transformation classifies a type as an aggregate. -/
def isAggregate (t : QualType) : Bool := t.isUnionType || t.isStructureType

/-- The declaration text the transformation emits for a temp variable of
type `t` named `name`: `<type> <name>;\n`. -/
def tmpDeclText (t : QualType) (name : String) : String :=
  getAsStringInternal t name ++ ";\n"

/-- Summary of what processing a list of arguments does, starting from
name-counter value `np`: the operand texts in order, the insertion edits in
order, the suffixes allocated, and the final counter value. -/
structure ArgsEffect where
  ops : List String
  inserts : List Edit
  allocs : List Nat
  finalNp : Nat
  deriving DecidableEq, Repr

/-- Recomputation of the per-argument effects of `handleOneArgStr` over an
argument list: an aggregate argument contributes a fresh temp name, its
declaration insertion and one counter allocation; any other argument
contributes the operand `0` and nothing else. -/
def argsEffect (fid : Nat) (np : Nat) : List Expr → ArgsEffect
  | [] => ⟨[], [], [], np⟩
  | a :: rest =>
      if isAggregate a.type then
        let e := argsEffect fid (np + 1) rest
        ⟨getTmpTransName np :: e.ops,
         Edit.insertBeforeFunc fid
           (tmpDeclText a.type (getTmpTransName np)) :: e.inserts,
         np :: e.allocs, e.finalNp⟩
      else
        let e := argsEffect fid np rest
        ⟨"0" :: e.ops, e.inserts, e.allocs, e.finalNp⟩

/-- The trailing result operand chosen from the call's return type:
none for void, a fresh temp name for struct/union, the literal `0`
otherwise. -/
def retOps (rt : QualType) (np : Nat) : List String :=
  if rt.isVoidType then []
  else if isAggregate rt then [getTmpTransName np]
  else ["0"]

/-- The declaration insertion contributed by the trailing result operand
(only for a struct/union return type). -/
def retInserts (fid : Nat) (rt : QualType) (np : Nat) : List Edit :=
  if rt.isVoidType then []
  else if isAggregate rt then
    [Edit.insertBeforeFunc fid (tmpDeclText rt (getTmpTransName np))]
  else []

/-- The counter allocation contributed by the trailing result operand. -/
def retAllocs (rt : QualType) (np : Nat) : List Nat :=
  if rt.isVoidType then []
  else if isAggregate rt then [np]
  else []

/-- Final name-counter value after the trailing result operand. -/
def retFinalNp (rt : QualType) (np : Nat) : Nat :=
  if rt.isVoidType then np
  else if isAggregate rt then np + 1
  else np

/-- `",x1,x2,...,xn"`: the text contributed by a list of operands each
preceded by a comma. -/
def commaTail : List String → String
  | [] => ""
  | x :: xs => "," ++ x ++ commaTail xs

/-- `"x0,x1,...,xn"`: operands joined by commas. -/
def commaJoin : List String → String
  | [] => ""
  | x :: xs => x ++ commaTail xs

/-- The full operand list of the rewritten comma expression for a call with
at least one argument: one operand per argument, then the result operand
(absent for a void return type). -/
def fullOperands (ce : CallExpr) (np : Nat) : List String :=
  let e := argsEffect 0 np ce.args
  e.ops ++ retOps ce.retType e.finalNp

lemma commaTail_append (xs ys : List String) :
    commaTail (xs ++ ys) = commaTail xs ++ commaTail ys := by
  induction xs with
  | nil => simp [commaTail]
  | cons x xs ih => simp [commaTail, ih, String.append_assoc]

lemma argsEffect_ops_indep (fid fid' np : Nat) (args : List Expr) :
    (argsEffect fid np args).ops = (argsEffect fid' np args).ops := by
  induction args generalizing np with
  | nil => rfl
  | cons a rest ih =>
      by_cases h : isAggregate a.type = true <;>
        simp [argsEffect, h, ih]

lemma argsEffect_allocs_indep (fid fid' np : Nat) (args : List Expr) :
    (argsEffect fid np args).allocs = (argsEffect fid' np args).allocs := by
  induction args generalizing np with
  | nil => rfl
  | cons a rest ih =>
      by_cases h : isAggregate a.type = true <;>
        simp [argsEffect, h, ih]

lemma argsEffect_finalNp_indep (fid fid' np : Nat) (args : List Expr) :
    (argsEffect fid np args).finalNp = (argsEffect fid' np args).finalNp := by
  induction args generalizing np with
  | nil => rfl
  | cons a rest ih =>
      by_cases h : isAggregate a.type = true <;>
        simp [argsEffect, h, ih]

lemma commaTail_singleton (x : String) : commaTail [x] = "," ++ x := by
  simp [commaTail, String.append_empty]

lemma commaJoin_cons (x : String) (xs : List String) :
    commaJoin (x :: xs) = x ++ commaTail xs := rfl

/-- Characterization of `handleOneArgStr`: for an aggregate argument it
returns the fresh temp name, bumps the counter, and inserts the
declaration; for any other argument it returns `"0"` and leaves the state
untouched. -/
lemma handleOneArgStr_spec (fd : FunctionDecl) (arg : Expr) (s : RWState) :
    handleOneArgStr fd arg s =
      if isAggregate arg.type then
        (getTmpTransName s.namePostfix,
         { namePostfix := s.namePostfix + 1,
           allocated := s.allocated ++ [s.namePostfix],
           edits := s.edits ++ [Edit.insertBeforeFunc fd.fid
             (tmpDeclText arg.type (getTmpTransName s.namePostfix))] }) else
        ("0", s) := by
  by_cases h : isAggregate arg.type = true
  · have h' : (!arg.type.isUnionType && !arg.type.isStructureType) = false := by
      simp only [isAggregate, Bool.or_eq_true] at h
      rcases h with h | h <;> simp [h]
    simp [handleOneArgStr, h', h, allocTmpName, insertStringBeforeFunc,
      tmpDeclText]
  · have h' : (!arg.type.isUnionType && !arg.type.isStructureType) = true := by
      simp only [isAggregate, Bool.or_eq_true, not_or, Bool.not_eq_true] at h
      simp [h.1, h.2]
    simp [handleOneArgStr, h', h]

/-- Characterization of the argument loop `processRestArgs`: it appends the
comma-prefixed operand texts to the accumulator and performs exactly the
argument effects. -/
lemma processRestArgs_spec (fd : FunctionDecl) (args : List Expr) :
    ∀ (acc : String) (s : RWState),
    processRestArgs fd args acc s =
      (acc ++ commaTail (argsEffect fd.fid s.namePostfix args).ops,
       { namePostfix := (argsEffect fd.fid s.namePostfix args).finalNp,
         allocated := s.allocated ++ (argsEffect fd.fid s.namePostfix args).allocs,
         edits := s.edits ++ (argsEffect fd.fid s.namePostfix args).inserts }) := by
  induction args with
  | nil => intro acc s; simp [processRestArgs, argsEffect, commaTail]
  | cons a rest ih =>
      intro acc s
      rw [processRestArgs, handleOneArgStr_spec]
      by_cases h : isAggregate a.type = true
      · simp only [h, if_pos]
        rw [ih]
        simp [argsEffect, h, commaTail, String.append_assoc]
      · simp only [h]
        rw [if_neg (by simp [h]), ih]
        simp [argsEffect, h, commaTail, String.append_assoc]

/-- Characterization of `replaceCallExpr` on a call with zero arguments:
the single edit replaces the call's range with the empty string, and
neither the counter nor the ghost allocation trace moves. -/
lemma replaceCallExpr_nil_spec (fd : FunctionDecl) (ce : CallExpr)
    (s : RWState) (h : ce.args = []) :
    replaceCallExpr fd ce s =
      { s with edits := s.edits ++ [Edit.replaceRange ce.range ""] } := by
  obtain ⟨args, rt, r⟩ := ce
  simp only at h
  subst h
  simp [replaceCallExpr, replaceExpr]

/-- Characterization of `replaceCallExpr` on a call with at least one
argument: the run performs the per-argument effects in argument order, then
the return-type effect, then replaces the call's range with the
parenthesized comma-join of all operands. -/
lemma replaceCallExpr_cons_spec (fd : FunctionDecl) (ce : CallExpr)
    (s : RWState) (h : ce.args ≠ []) :
    replaceCallExpr fd ce s =
      { namePostfix :=
          retFinalNp ce.retType (argsEffect fd.fid s.namePostfix ce.args).finalNp,
        allocated := s.allocated ++ (argsEffect fd.fid s.namePostfix ce.args).allocs
          ++ retAllocs ce.retType (argsEffect fd.fid s.namePostfix ce.args).finalNp,
        edits := s.edits ++ (argsEffect fd.fid s.namePostfix ce.args).inserts
          ++ retInserts fd.fid ce.retType
               (argsEffect fd.fid s.namePostfix ce.args).finalNp
          ++ [Edit.replaceRange ce.range
               ("(" ++ commaJoin ((argsEffect fd.fid s.namePostfix ce.args).ops
                  ++ retOps ce.retType
                       (argsEffect fd.fid s.namePostfix ce.args).finalNp)
                ++ ")")] } := by
  obtain ⟨args, rt, r⟩ := ce
  obtain ⟨⟩ | ⟨a0, rest⟩ := args
  · exact absurd rfl h
  · simp only [replaceCallExpr]
    rw [handleOneArgStr_spec]
    by_cases h0 : isAggregate a0.type = true
    · simp only [h0, if_pos]
      rw [processRestArgs_spec]
      by_cases hv : rt.isVoidType = true
      · simp [replaceExpr, argsEffect, h0, hv, retFinalNp, retAllocs,
          retInserts, retOps, commaJoin, commaTail_append,
          String.append_assoc]
      · by_cases ha : isAggregate rt = true
        · have ha' : (rt.isUnionType || rt.isStructureType) = true := ha
          rw [allocTmpName]
          simp [replaceExpr, insertStringBeforeFunc, argsEffect, h0, hv, ha,
            ha', retFinalNp, retAllocs, retInserts, retOps, commaJoin,
            commaTail_append, commaTail_singleton, tmpDeclText,
            String.append_assoc]
        · have ha' : (rt.isUnionType || rt.isStructureType) = false := by
            simpa [isAggregate] using ha
          have h2 : ("," : String) ++ "0" = ",0" := rfl
          simp [replaceExpr, argsEffect, h0, hv, ha, ha', retFinalNp,
            retAllocs, retInserts, retOps, commaJoin, commaTail_append,
            commaTail_singleton, ← h2, String.append_assoc]
    · rw [if_neg h0, processRestArgs_spec]
      by_cases hv : rt.isVoidType = true
      · simp only [replaceExpr, argsEffect, h0, hv, retFinalNp, retAllocs,
          retInserts, retOps, if_true, if_false, Bool.false_eq_true,
          ite_false, ite_true, commaJoin, commaTail_append,
          String.append_assoc, List.append_assoc, List.append_nil,
          List.nil_append, RWState.mk.injEq]
      · by_cases ha : isAggregate rt = true
        · have ha' : (rt.isUnionType || rt.isStructureType) = true := ha
          rw [allocTmpName]
          simp only [replaceExpr, insertStringBeforeFunc, argsEffect, h0, hv,
            ha, ha', retFinalNp, retAllocs, retInserts, retOps, if_true,
            if_false, Bool.false_eq_true, ite_false, ite_true, commaJoin_cons,
            commaTail_append, commaTail_singleton, tmpDeclText,
            String.append_assoc, List.append_assoc, List.append_nil,
            List.nil_append, List.cons_append, Bool.or_eq_true,
            RWState.mk.injEq, true_and, and_true, and_self]
        · have ha' : (rt.isUnionType || rt.isStructureType) = false := by
            simpa [isAggregate] using ha
          simp only [replaceExpr, argsEffect, h0, hv, ha, ha', retFinalNp,
            retAllocs, retInserts, retOps, if_true, if_false,
            Bool.false_eq_true, ite_false, ite_true, commaJoin_cons,
            commaTail_append, commaTail_singleton,
            String.append_assoc, List.append_assoc, List.append_nil,
            List.nil_append, List.cons_append, Bool.or_eq_true,
            RWState.mk.injEq, true_and, and_true, and_self]
          rfl

lemma visitCallExpr_validInstanceNum (K : Nat) (c : CallExpr) (s : VState) :
    (visitCallExpr K c s).validInstanceNum = s.validInstanceNum + 1 := by
  by_cases h : K = s.validInstanceNum + 1 <;> simp [visitCallExpr, h]

lemma visitCallExpr_visitorFD (K : Nat) (c : CallExpr) (s : VState) :
    (visitCallExpr K c s).visitorCurrentFD = s.visitorCurrentFD := by
  by_cases h : K = s.validInstanceNum + 1 <;> simp [visitCallExpr, h]

lemma visitCalls_validInstanceNum (K : Nat) (cs : List CallExpr) :
    ∀ s : VState,
    (visitCalls K cs s).validInstanceNum = s.validInstanceNum + cs.length := by
  induction cs with
  | nil => intro s; simp [visitCalls]
  | cons c cs ih =>
      intro s
      simp only [visitCalls, List.length_cons]
      rw [ih, visitCallExpr_validInstanceNum]
      omega

lemma visitCalls_visitorFD (K : Nat) (cs : List CallExpr) :
    ∀ s : VState,
    (visitCalls K cs s).visitorCurrentFD = s.visitorCurrentFD := by
  induction cs with
  | nil => intro s; simp [visitCalls]
  | cons c cs ih =>
      intro s
      simp only [visitCalls]
      rw [ih, visitCallExpr_visitorFD]

/-- Once `ValidInstanceNum` has reached or passed the target counter — or
cannot reach it within this list — the recorded selection is not touched. -/
lemma visitCalls_skip (K : Nat) (cs : List CallExpr) :
    ∀ s : VState,
    K ≤ s.validInstanceNum ∨ s.validInstanceNum + cs.length < K →
    (visitCalls K cs s).theCallExpr = s.theCallExpr ∧
      (visitCalls K cs s).consumerFD = s.consumerFD := by
  induction cs with
  | nil => intro s _; simp [visitCalls]
  | cons c cs ih =>
      intro s h
      have hne : K ≠ s.validInstanceNum + 1 := by
        simp only [List.length_cons] at h; omega
      have hstep : visitCallExpr K c s =
          { s with validInstanceNum := s.validInstanceNum + 1 } := by
        simp [visitCallExpr, hne]
      simp only [visitCalls, hstep]
      apply ih
      show K ≤ s.validInstanceNum + 1 ∨ s.validInstanceNum + 1 + cs.length < K
      simp only [List.length_cons] at h
      omega

/-- If the target counter falls inside this list of call expressions,
the visitor records exactly the call at the corresponding position, and the
consumer's function is the visitor's current function. -/
lemma visitCalls_hit (K : Nat) (cs : List CallExpr) :
    ∀ s : VState,
    s.validInstanceNum < K → K ≤ s.validInstanceNum + cs.length →
    (visitCalls K cs s).theCallExpr = cs[K - s.validInstanceNum - 1]? ∧
      (visitCalls K cs s).consumerFD = s.visitorCurrentFD := by
  induction cs with
  | nil => intro s h1 h2; simp at h2; omega
  | cons c cs ih =>
      intro s h1 h2
      by_cases hk : K = s.validInstanceNum + 1
      · have hidx : K - s.validInstanceNum - 1 = 0 := by omega
        have hstep : visitCallExpr K c s =
            { s with validInstanceNum := s.validInstanceNum + 1,
                     theCallExpr := some c,
                     consumerFD := s.visitorCurrentFD } := by
          simp [visitCallExpr, hk]
        simp only [visitCalls, hstep]
        obtain ⟨hA, hB⟩ := visitCalls_skip K cs
          { s with validInstanceNum := s.validInstanceNum + 1,
                   theCallExpr := some c, consumerFD := s.visitorCurrentFD }
          (Or.inl (by show K ≤ s.validInstanceNum + 1; omega))
        refine ⟨?_, ?_⟩
        · rw [hA, hidx]
          simp
        · rw [hB]
      · have hidx : K - s.validInstanceNum - 1 =
            (K - s.validInstanceNum - 2) + 1 := by omega
        have hstep : visitCallExpr K c s =
            { s with validInstanceNum := s.validInstanceNum + 1 } := by
          simp [visitCallExpr, hk]
        simp only [visitCalls, hstep]
        have hrec := ih { s with validInstanceNum := s.validInstanceNum + 1 }
          (by show s.validInstanceNum + 1 < K; omega)
          (by show K ≤ s.validInstanceNum + 1 + cs.length
              simp only [List.length_cons] at h2; omega)
        refine ⟨?_, ?_⟩
        · rw [hrec.1, hidx, List.getElem?_cons_succ]
          show cs[K - (s.validInstanceNum + 1) - 1]? =
            cs[K - s.validInstanceNum - 2]?
          congr 1
        · exact hrec.2

lemma allCalls_funcDef (fd : FunctionDecl) (ds : List TopLevelDecl) :
    allCalls (TopLevelDecl.funcDef fd :: ds) = fd.body ++ allCalls ds := by
  simp [allCalls]

lemma allCalls_funcProto (fd : FunctionDecl) (ds : List TopLevelDecl) :
    allCalls (TopLevelDecl.funcProto fd :: ds) = allCalls ds := by
  simp [allCalls]

lemma allCalls_otherDecl (ds : List TopLevelDecl) :
    allCalls (TopLevelDecl.otherDecl :: ds) = allCalls ds := by
  simp [allCalls]

lemma enclosingFDs_funcDef (fd : FunctionDecl) (ds : List TopLevelDecl) :
    enclosingFDs (TopLevelDecl.funcDef fd :: ds) =
      (fd.body.map fun _ => fd) ++ enclosingFDs ds := by
  simp [enclosingFDs]

lemma enclosingFDs_funcProto (fd : FunctionDecl) (ds : List TopLevelDecl) :
    enclosingFDs (TopLevelDecl.funcProto fd :: ds) = enclosingFDs ds := by
  simp [enclosingFDs]

lemma enclosingFDs_otherDecl (ds : List TopLevelDecl) :
    enclosingFDs (TopLevelDecl.otherDecl :: ds) = enclosingFDs ds := by
  simp [enclosingFDs]

lemma visitFunctionDecl_fields (fd : FunctionDecl) (s : VState) :
    (visitFunctionDecl fd s).validInstanceNum = s.validInstanceNum ∧
      (visitFunctionDecl fd s).theCallExpr = s.theCallExpr ∧
      (visitFunctionDecl fd s).consumerFD = s.consumerFD ∧
      (visitFunctionDecl fd s).visitorCurrentFD = some fd := by
  simp [visitFunctionDecl]

lemma handleTopLevelDecls_validInstanceNum (K : Nat) (ds : List TopLevelDecl) :
    ∀ s : VState,
    (handleTopLevelDecls K ds s).validInstanceNum =
      s.validInstanceNum + (allCalls ds).length := by
  induction ds with
  | nil => intro s; simp [handleTopLevelDecls, allCalls]
  | cons d ds ih =>
      intro s
      match d with
      | TopLevelDecl.funcDef fd =>
          simp only [handleTopLevelDecls, traverseFuncDef]
          rw [ih, visitCalls_validInstanceNum, allCalls_funcDef]
          simp [visitFunctionDecl]
          omega
      | TopLevelDecl.funcProto fd =>
          simp only [handleTopLevelDecls]
          rw [ih, allCalls_funcProto]
      | TopLevelDecl.otherDecl =>
          simp only [handleTopLevelDecls]
          rw [ih, allCalls_otherDecl]

lemma handleTopLevelDecls_skip (K : Nat) (ds : List TopLevelDecl) :
    ∀ s : VState,
    K ≤ s.validInstanceNum ∨ s.validInstanceNum + (allCalls ds).length < K →
    (handleTopLevelDecls K ds s).theCallExpr = s.theCallExpr ∧
      (handleTopLevelDecls K ds s).consumerFD = s.consumerFD := by
  induction ds with
  | nil => intro s _; simp [handleTopLevelDecls]
  | cons d ds ih =>
      intro s h
      match d with
      | TopLevelDecl.funcDef fd =>
          rw [allCalls_funcDef] at h
          simp only [List.length_append] at h
          simp only [handleTopLevelDecls, traverseFuncDef]
          obtain ⟨hA, hB⟩ := visitCalls_skip K fd.body (visitFunctionDecl fd s)
            (by simp only [visitFunctionDecl]; omega)
          obtain ⟨hC, hD⟩ := ih (visitCalls K fd.body (visitFunctionDecl fd s))
            (by rw [visitCalls_validInstanceNum]
                simp only [visitFunctionDecl]
                omega)
          rw [hC, hD, hA, hB]
          simp [visitFunctionDecl]
      | TopLevelDecl.funcProto fd =>
          rw [allCalls_funcProto] at h
          simp only [handleTopLevelDecls]
          exact ih s h
      | TopLevelDecl.otherDecl =>
          rw [allCalls_otherDecl] at h
          simp only [handleTopLevelDecls]
          exact ih s h

lemma handleTopLevelDecls_hit (K : Nat) (ds : List TopLevelDecl) :
    ∀ s : VState,
    s.validInstanceNum < K → K ≤ s.validInstanceNum + (allCalls ds).length →
    (handleTopLevelDecls K ds s).theCallExpr =
        (allCalls ds)[K - s.validInstanceNum - 1]? ∧
      (handleTopLevelDecls K ds s).consumerFD =
        (enclosingFDs ds)[K - s.validInstanceNum - 1]? := by
  induction ds with
  | nil => intro s h1 h2; simp [allCalls] at h2; omega
  | cons d ds ih =>
      intro s h1 h2
      match d with
      | TopLevelDecl.funcDef fd =>
          rw [allCalls_funcDef] at h2
          simp only [List.length_append] at h2
          rw [allCalls_funcDef, enclosingFDs_funcDef]
          simp only [handleTopLevelDecls, traverseFuncDef]
          by_cases hin : K ≤ s.validInstanceNum + fd.body.length
          · have hidx : K - s.validInstanceNum - 1 < fd.body.length := by
              omega
            obtain ⟨hA, hB⟩ := visitCalls_hit K fd.body
              (visitFunctionDecl fd s)
              (by simp only [visitFunctionDecl]; omega)
              (by simp only [visitFunctionDecl]; omega)
            obtain ⟨hC, hD⟩ := handleTopLevelDecls_skip K ds
              (visitCalls K fd.body (visitFunctionDecl fd s))
              (Or.inl (by rw [visitCalls_validInstanceNum]
                          simp only [visitFunctionDecl]
                          omega))
            rw [hC, hD, hA, hB]
            simp only [visitFunctionDecl]
            constructor
            · rw [List.getElem?_append]
              simp [hidx]
            · rw [List.getElem?_append]
              simp only [List.length_map, hidx, if_pos]
              rw [List.getElem?_map, List.getElem?_eq_getElem hidx]
              simp
          · have hvin :
                (visitCalls K fd.body (visitFunctionDecl fd s)).validInstanceNum
                  = s.validInstanceNum + fd.body.length := by
              rw [visitCalls_validInstanceNum]
              simp [visitFunctionDecl]
            obtain ⟨hC, hD⟩ := ih (visitCalls K fd.body (visitFunctionDecl fd s))
              (by rw [hvin]; omega) (by rw [hvin]; omega)
            rw [hC, hD, hvin]
            constructor
            · rw [List.getElem?_append]
              rw [if_neg (by omega)]
              congr 1
              omega
            · rw [List.getElem?_append]
              rw [if_neg (by simp only [List.length_map]; omega)]
              simp only [List.length_map]
              congr 1
              omega
      | TopLevelDecl.funcProto fd =>
          rw [allCalls_funcProto] at h2
          rw [allCalls_funcProto, enclosingFDs_funcProto]
          simp only [handleTopLevelDecls]
          exact ih s h1 h2
      | TopLevelDecl.otherDecl =>
          rw [allCalls_otherDecl] at h2
          rw [allCalls_otherDecl, enclosingFDs_otherDecl]
          simp only [handleTopLevelDecls]
          exact ih s h1 h2

lemma enclosingFDs_length (ds : List TopLevelDecl) :
    (enclosingFDs ds).length = (allCalls ds).length := by
  induction ds with
  | nil => rfl
  | cons d ds ih =>
      match d with
      | TopLevelDecl.funcDef fd =>
          rw [allCalls_funcDef, enclosingFDs_funcDef]
          simp [ih]
      | TopLevelDecl.funcProto fd =>
          rw [allCalls_funcProto, enclosingFDs_funcProto, ih]
      | TopLevelDecl.otherDecl =>
          rw [allCalls_otherDecl, enclosingFDs_otherDecl, ih]

lemma runSelector_validInstanceNum (K : Nat) (ds : List TopLevelDecl) :
    (runSelector K ds).validInstanceNum = (allCalls ds).length := by
  rw [runSelector, handleTopLevelDecls_validInstanceNum]
  simp [initVState]

lemma runSelector_hit (K : Nat) (ds : List TopLevelDecl) (h1 : 1 ≤ K)
    (h2 : K ≤ (allCalls ds).length) :
    (runSelector K ds).theCallExpr = (allCalls ds)[K - 1]? ∧
      (runSelector K ds).consumerFD = (enclosingFDs ds)[K - 1]? := by
  have h := handleTopLevelDecls_hit K ds initVState
    (by simp only [initVState]; omega)
    (by simp only [initVState]; omega)
  simpa [runSelector, initVState] using h

/-- For an in-range target counter, the run reaches the rewriter: the
selection is the (K-1)-indexed call and its traversed function, and the
outcome is the rewriter's state started from `maxNamePostfix + 1`. -/
lemma handleTranslationUnit_inRange (K : Nat) (tu : TransUnit) (h1 : 1 ≤ K)
    (h2 : K ≤ (allCalls tu.decls).length) :
    ∃ ce fd, (allCalls tu.decls)[K - 1]? = some ce ∧
      (enclosingFDs tu.decls)[K - 1]? = some fd ∧
      handleTranslationUnit K tu =
        { transError := none,
          edits := (replaceCallExpr fd ce
            { namePostfix := tu.maxNamePostfix + 1, allocated := [],
              edits := [] }).edits,
          allocated := (replaceCallExpr fd ce
            { namePostfix := tu.maxNamePostfix + 1, allocated := [],
              edits := [] }).allocated } := by
  have hidx : K - 1 < (allCalls tu.decls).length := by omega
  have hidx' : K - 1 < (enclosingFDs tu.decls).length := by
    rw [enclosingFDs_length]; omega
  obtain ⟨hA, hB⟩ := runSelector_hit K tu.decls h1 h2
  refine ⟨(allCalls tu.decls)[K - 1], (enclosingFDs tu.decls)[K - 1],
    List.getElem?_eq_getElem hidx, List.getElem?_eq_getElem hidx', ?_⟩
  rw [handleTranslationUnit]
  rw [if_neg (by rw [runSelector_validInstanceNum]; omega)]
  rw [hA, List.getElem?_eq_getElem hidx]
  rw [hB, List.getElem?_eq_getElem hidx']

lemma argsEffect_allocs_bounds (fid : Nat) (args : List Expr) :
    ∀ np : Nat,
    (∀ n ∈ (argsEffect fid np args).allocs,
        np ≤ n ∧ n < (argsEffect fid np args).finalNp) ∧
      np ≤ (argsEffect fid np args).finalNp ∧
      (argsEffect fid np args).allocs.Nodup := by
  induction args with
  | nil => intro np; simp [argsEffect]
  | cons a rest ih =>
      intro np
      by_cases h : isAggregate a.type = true
      · obtain ⟨ihb, ihf, ihn⟩ := ih (np + 1)
        refine ⟨?_, ?_, ?_⟩
        · intro n hn
          simp only [argsEffect, h, if_pos, List.mem_cons] at hn
          rcases hn with rfl | hn
          · simp only [argsEffect, h, if_pos]
            omega
          · have := ihb n hn
            simp only [argsEffect, h, if_pos]
            omega
        · simp only [argsEffect, h, if_pos]
          omega
        · simp only [argsEffect, h, if_pos, List.nodup_cons]
          refine ⟨fun hmem => ?_, ihn⟩
          have := ihb np hmem
          omega
      · obtain ⟨ihb, ihf, ihn⟩ := ih np
        refine ⟨?_, ?_, ?_⟩
        · intro n hn
          simp only [argsEffect, h, if_neg, if_false] at hn ⊢
          exact ihb n hn
        · simp only [argsEffect, h, if_neg, if_false]
          exact ihf
        · simp only [argsEffect, h, if_neg, if_false]
          exact ihn

lemma argsEffect_inserts_shape (fid : Nat) (args : List Expr) :
    ∀ np : Nat, ∀ e ∈ (argsEffect fid np args).inserts,
      ∃ t, e = Edit.insertBeforeFunc fid t := by
  induction args with
  | nil => intro np e he; simp [argsEffect] at he
  | cons a rest ih =>
      intro np e he
      by_cases h : isAggregate a.type = true
      · simp only [argsEffect, h, if_pos, List.mem_cons] at he
        rcases he with rfl | he
        · exact ⟨_, rfl⟩
        · exact ih (np + 1) e he
      · simp only [argsEffect, h, if_neg, if_false] at he
        exact ih np e he

lemma retInserts_shape (fid : Nat) (rt : QualType) (np : Nat) :
    ∀ e ∈ retInserts fid rt np, ∃ t, e = Edit.insertBeforeFunc fid t := by
  intro e he
  by_cases hv : rt.isVoidType = true
  · simp [retInserts, hv] at he
  · by_cases ha : isAggregate rt = true
    · simp only [retInserts, hv, ha, if_pos, if_neg, Bool.false_eq_true,
        ite_false, ite_true, List.mem_singleton] at he
      exact ⟨_, he⟩
    · simp [retInserts, hv, ha] at he

lemma retAllocs_bounds (rt : QualType) (np : Nat) :
    ∀ n ∈ retAllocs rt np, n = np := by
  intro n hn
  by_cases hv : rt.isVoidType = true
  · simp [retAllocs, hv] at hn
  · by_cases ha : isAggregate rt = true
    · simp only [retAllocs, hv, ha, Bool.false_eq_true, ite_false, ite_true,
        List.mem_singleton] at hn
      exact hn
    · simp [retAllocs, hv, ha] at hn

lemma argsEffect_ops_length (fid : Nat) (args : List Expr) :
    ∀ np : Nat, (argsEffect fid np args).ops.length = args.length := by
  induction args with
  | nil => intro np; simp [argsEffect]
  | cons a rest ih =>
      intro np
      by_cases h : isAggregate a.type = true <;>
        simp [argsEffect, h, ih]

lemma retOps_length (rt : QualType) (np : Nat) :
    (retOps rt np).length = if rt.isVoidType then 0 else 1 := by
  by_cases hv : rt.isVoidType = true
  · simp [retOps, hv]
  · by_cases ha : isAggregate rt = true <;> simp [retOps, hv, ha]

/-- The type `int` (scalar). -/
def intT : QualType := { kind := TypeKind.scalar, printed := "int" }

/-- The type `int *` (pointer, hence handled as a non-aggregate scalar). -/
def intPtrT : QualType := { kind := TypeKind.scalar, printed := "int *" }

/-- The type `void`. -/
def voidT : QualType := { kind := TypeKind.void, printed := "void" }

/-- The type `struct Z`. -/
def structZT : QualType := { kind := TypeKind.structure_, printed := "struct Z" }

/-- The type `struct W`. -/
def structWT : QualType := { kind := TypeKind.structure_, printed := "struct W" }

/-- Test unit: one function containing a single zero-argument call that
returns `int`. -/
def tuC1 : TransUnit :=
  { decls := [TopLevelDecl.funcDef
      { fid := 0, body := [{ args := [], retType := intT, range := 0 }] }],
    maxNamePostfix := 0 }

/-- Test unit: one function containing a single zero-argument call that
returns `unsigned`. -/
def tuC2 : TransUnit :=
  { decls := [TopLevelDecl.funcDef
      { fid := 1,
        body := [{ args := [],
                   retType := { kind := TypeKind.scalar,
                                printed := "unsigned" },
                   range := 5 }] }],
    maxNamePostfix := 0 }

/-- C7: If the target ordinal exceeds the total number of call expressions
found in the translation unit, the run terminates with the
`TransMaxInstanceError` ("no such instance") outcome and performs no buffer
mutation: no replacement and no declaration insertion. -/
theorem C7_selection_out_of_range (K : Nat) (tu : TransUnit)
    (h : (allCalls tu.decls).length < K) :
    handleTranslationUnit K tu =
      { transError := some TransErrorKind.maxInstance, edits := [],
        allocated := [] } := by
  simp only [handleTranslationUnit]
  rw [if_pos (by rw [runSelector_validInstanceNum]; omega)]

/-- Witness for C7: a unit with one call expression, targeted with
ordinal 2. -/
theorem C7_selection_out_of_range_witness :
    (allCalls tuC1.decls).length < 2 ∧
      handleTranslationUnit 2 tuC1 =
        { transError := some TransErrorKind.maxInstance, edits := [],
          allocated := [] } :=
  ⟨by decide, C7_selection_out_of_range 2 tuC1 (by decide)⟩

/-- C9: the selector keeps a 1-based running count over call expressions in
traversal order; the final count is the total number of call expressions,
and for every ordinal K in `[1, total]` the recorded call expression is
exactly the K-th one visited (recording happens once and is never
overwritten). -/
theorem C9_selector_records_kth (K : Nat) (ds : List TopLevelDecl)
    (h1 : 1 ≤ K) (h2 : K ≤ (allCalls ds).length) :
    (runSelector K ds).validInstanceNum = (allCalls ds).length ∧
      (runSelector K ds).theCallExpr = (allCalls ds)[K - 1]? :=
  ⟨runSelector_validInstanceNum K ds, (runSelector_hit K ds h1 h2).1⟩

/-- Test unit: two functions with two call expressions each. -/
def tuC9 : TransUnit :=
  { decls := [TopLevelDecl.funcDef
      { fid := 0,
        body := [{ args := [], retType := voidT, range := 0 },
                 { args := [], retType := intT, range := 1 }] },
      TopLevelDecl.funcProto { fid := 2, body := [] },
      TopLevelDecl.funcDef
      { fid := 1,
        body := [{ args := [], retType := intT, range := 2 },
                 { args := [], retType := voidT, range := 3 }] }],
    maxNamePostfix := 0 }

/-- Witness for C9: in `tuC9`, ordinal 3 selects the third call in
traversal order (the first call of the second function definition). -/
theorem C9_selector_records_kth_witness :
    ((runSelector 3 tuC9.decls).validInstanceNum =
        (allCalls tuC9.decls).length ∧
      (runSelector 3 tuC9.decls).theCallExpr =
        (allCalls tuC9.decls)[3 - 1]?) ∧
      (runSelector 3 tuC9.decls).theCallExpr =
        some { args := [], retType := intT, range := 2 } :=
  ⟨C9_selector_records_kth 3 tuC9.decls (by decide) (by decide), by decide⟩

/-- C10: whenever the target ordinal is within range, the recorded call
expression and the recorded enclosing function are both non-null at rewrite
time, so the two `TransAssert`s before the rewrite never fire and the run
completes without an assertion error. -/
theorem C10_asserts_never_fire (K : Nat) (tu : TransUnit) (h1 : 1 ≤ K)
    (h2 : K ≤ (allCalls tu.decls).length) :
    (runSelector K tu.decls).theCallExpr.isSome = true ∧
      (runSelector K tu.decls).consumerFD.isSome = true ∧
      (handleTranslationUnit K tu).transError = none := by
  obtain ⟨hA, hB⟩ := runSelector_hit K tu.decls h1 h2
  obtain ⟨ce, fd, hce, hfd, hout⟩ := handleTranslationUnit_inRange K tu h1 h2
  refine ⟨?_, ?_, ?_⟩
  · rw [hA, hce]; rfl
  · rw [hB, hfd]; rfl
  · rw [hout]

/-- Witness for C10: ordinal 1 in the one-call unit `tuC1`. -/
theorem C10_asserts_never_fire_witness :
    (runSelector 1 tuC1.decls).theCallExpr.isSome = true ∧
      (runSelector 1 tuC1.decls).consumerFD.isSome = true ∧
      (handleTranslationUnit 1 tuC1).transError = none :=
  C10_asserts_never_fire 1 tuC1 (by decide) (by decide)

/-- C1 counterexample: in `tuC1`, the selected call has zero arguments and
the non-void return type `int`, yet the run's only buffer edit replaces the
call's range with the empty string — not with `(0)`, and with no
temp-variable declaration. -/
theorem C1_counterexample_zero_arg_int :
    (handleTranslationUnit 1 tuC1).edits = [Edit.replaceRange 0 ""] ∧
      ("" : String) ≠ "(0)" := by
  decide

/-- C1 as amended: for every selected call expression with zero arguments
and a non-void return type, the rewrite replaces the call's source range
with the empty string and emits no declaration — the zero-argument early
exit ignores the return type. -/
theorem C1_zero_arg_nonvoid_empty (K : Nat) (tu : TransUnit) (h1 : 1 ≤ K)
    (h2 : K ≤ (allCalls tu.decls).length) (ce : CallExpr)
    (hce : (allCalls tu.decls)[K - 1]? = some ce) (hargs : ce.args = [])
    (hv : ce.retType.isVoidType = false) :
    (handleTranslationUnit K tu).edits = [Edit.replaceRange ce.range ""] := by
  obtain ⟨ce', fd, hce', hfd, hout⟩ := handleTranslationUnit_inRange K tu h1 h2
  have hc : ce' = ce := by
    rw [hce] at hce'
    exact (Option.some.inj hce').symm
  subst hc
  rw [hout, replaceCallExpr_nil_spec _ _ _ hargs]
  simp

/-- Witness for the amended C1 at `tuC1` (zero arguments, `int` return). -/
theorem C1_zero_arg_nonvoid_empty_witness :
    (handleTranslationUnit 1 tuC1).edits = [Edit.replaceRange 0 ""] :=
  C1_zero_arg_nonvoid_empty 1 tuC1 (by decide) (by decide)
    { args := [], retType := intT, range := 0 } (by decide) (by decide)
    (by decide)

/-- Test unit: one function containing a single zero-argument call to a
`void` function. -/
def tuC5 : TransUnit :=
  { decls := [TopLevelDecl.funcDef
      { fid := 3, body := [{ args := [], retType := voidT, range := 9 }] }],
    maxNamePostfix := 2 }

/-- C5: for every selected call expression with zero arguments and void
return type, the call's source range is replaced with the empty string and
no auxiliary declaration is emitted (the replacement is the run's only
edit). -/
theorem C5_zero_arg_void_empty (K : Nat) (tu : TransUnit) (h1 : 1 ≤ K)
    (h2 : K ≤ (allCalls tu.decls).length) (ce : CallExpr)
    (hce : (allCalls tu.decls)[K - 1]? = some ce) (hargs : ce.args = [])
    (hv : ce.retType.isVoidType = true) :
    (handleTranslationUnit K tu).edits = [Edit.replaceRange ce.range ""] := by
  obtain ⟨ce', fd, hce', hfd, hout⟩ := handleTranslationUnit_inRange K tu h1 h2
  have hc : ce' = ce := by
    rw [hce] at hce'
    exact (Option.some.inj hce').symm
  subst hc
  rw [hout, replaceCallExpr_nil_spec _ _ _ hargs]
  simp

/-- Witness for C5 at `tuC5` (zero arguments, `void` return). -/
theorem C5_zero_arg_void_empty_witness :
    (handleTranslationUnit 1 tuC5).edits = [Edit.replaceRange 9 ""] :=
  C5_zero_arg_void_empty 1 tuC5 (by decide) (by decide)
    { args := [], retType := voidT, range := 9 } (by decide) (by decide)
    (by decide)

/-- C4: for every argument of the selected call, if its static type is a
struct or union, the operand text is the temp name freshly allocated from
the name counter and exactly one declaration `<type> <name>;\n` of that
exact type string is inserted before the enclosing function; for every
other type the operand text is the literal `0` and the state (hence the
buffer) is untouched. -/
theorem C4_argument_classification (fd : FunctionDecl) (arg : Expr)
    (s : RWState) :
    (isAggregate arg.type = true →
      handleOneArgStr fd arg s =
        (getTmpTransName s.namePostfix,
         { namePostfix := s.namePostfix + 1,
           allocated := s.allocated ++ [s.namePostfix],
           edits := s.edits ++ [Edit.insertBeforeFunc fd.fid
             (getAsStringInternal arg.type (getTmpTransName s.namePostfix)
               ++ ";\n")] })) ∧
    (isAggregate arg.type = false →
      handleOneArgStr fd arg s = ("0", s)) := by
  constructor
  · intro h
    rw [handleOneArgStr_spec]
    simp [h, tmpDeclText]
  · intro h
    rw [handleOneArgStr_spec]
    simp [h]

/-- Witness for C4: a `struct Z` argument yields the fresh temp name and
its declaration; an `int` argument yields `0` and no edit. -/
theorem C4_argument_classification_witness :
    handleOneArgStr { fid := 0, body := [] } { type := structZT }
        { namePostfix := 3, allocated := [], edits := [] } =
      ("tmp_var_3",
       { namePostfix := 4, allocated := [3],
         edits := [Edit.insertBeforeFunc 0 "struct Z tmp_var_3;\n"] }) ∧
    handleOneArgStr { fid := 0, body := [] } { type := intT }
        { namePostfix := 3, allocated := [], edits := [] } =
      ("0", { namePostfix := 3, allocated := [], edits := [] }) :=
  ⟨(C4_argument_classification { fid := 0, body := [] } { type := structZT }
      { namePostfix := 3, allocated := [], edits := [] }).1 (by decide),
   (C4_argument_classification { fid := 0, body := [] } { type := intT }
      { namePostfix := 3, allocated := [], edits := [] }).2 (by decide)⟩

/-- C2 counterexample: in `tuC2` the selected call has zero arguments and
the non-void return type `unsigned`; the claim then requires a
parenthesized comma-expression with 0 + 1 operands, but the run replaces
the call's range with the empty string, which is not of that shape. -/
theorem C2_counterexample_zero_arg_nonvoid :
    (handleTranslationUnit 1 tuC2).edits = [Edit.replaceRange 5 ""] ∧
      ¬ ∃ ops : List String, ops.length = 0 + 1 ∧
          ("" : String) = "(" ++ commaJoin ops ++ ")" := by
  refine ⟨by decide, ?_⟩
  rintro ⟨ops, hlen, heq⟩
  have h := congrArg String.data heq
  rw [String.data_append, String.data_append] at h
  simp at h

/-- C2 as amended: after the rewrite, the selected call site's source range
contains a parenthesized comma-expression with exactly (argument count)
leading operands plus one trailing result operand (none when the return
type is void), with the exception of every zero-argument call — regardless
of its return type — whose replacement is the empty string. -/
theorem C2_operand_count (K : Nat) (tu : TransUnit) (h1 : 1 ≤ K)
    (h2 : K ≤ (allCalls tu.decls).length) (ce : CallExpr)
    (hce : (allCalls tu.decls)[K - 1]? = some ce) :
    (ce.args = [] →
      (handleTranslationUnit K tu).edits =
        [Edit.replaceRange ce.range ""]) ∧
    (ce.args ≠ [] →
      ∃ ins : List Edit,
        (handleTranslationUnit K tu).edits = ins ++
          [Edit.replaceRange ce.range
            ("(" ++ commaJoin (fullOperands ce (tu.maxNamePostfix + 1))
              ++ ")")] ∧
        (fullOperands ce (tu.maxNamePostfix + 1)).length =
          ce.args.length +
            (if ce.retType.isVoidType then 0 else 1)) := by
  obtain ⟨ce', fd, hce', hfd, hout⟩ := handleTranslationUnit_inRange K tu h1 h2
  have hc : ce' = ce := by
    rw [hce] at hce'
    exact (Option.some.inj hce').symm
  subst hc
  constructor
  · intro hargs
    rw [hout, replaceCallExpr_nil_spec _ _ _ hargs]
    simp
  · intro hargs
    rw [hout, replaceCallExpr_cons_spec _ _ _ hargs]
    refine ⟨(argsEffect fd.fid (tu.maxNamePostfix + 1) ce'.args).inserts ++
      retInserts fd.fid ce'.retType
        (argsEffect fd.fid (tu.maxNamePostfix + 1) ce'.args).finalNp, ?_, ?_⟩
    · simp only [List.nil_append, List.append_assoc]
      congr 3
      rw [fullOperands]
      rw [argsEffect_ops_indep 0 fd.fid, argsEffect_finalNp_indep 0 fd.fid]
    · rw [fullOperands]
      simp only [List.length_append]
      rw [argsEffect_ops_length, retOps_length]

/-- Witness for the amended C2: a one-argument `int` call returning `int`
in a fresh unit; the replacement is `(0,0)` with 1 + 1 operands. -/
def tuC2W : TransUnit :=
  { decls := [TopLevelDecl.funcDef
      { fid := 0,
        body := [{ args := [{ type := intT }], retType := intT,
                   range := 4 }] }],
    maxNamePostfix := 0 }

theorem C2_operand_count_witness :
    ((({ args := [{ type := intT }], retType := intT,
         range := 4 } : CallExpr).args = [] →
      (handleTranslationUnit 1 tuC2W).edits =
        [Edit.replaceRange
          ({ args := [{ type := intT }], retType := intT,
             range := 4 } : CallExpr).range ""]) ∧
    (({ args := [{ type := intT }], retType := intT,
        range := 4 } : CallExpr).args ≠ [] →
      ∃ ins : List Edit,
        (handleTranslationUnit 1 tuC2W).edits = ins ++
          [Edit.replaceRange
            ({ args := [{ type := intT }], retType := intT,
               range := 4 } : CallExpr).range
            ("(" ++ commaJoin (fullOperands
              { args := [{ type := intT }], retType := intT, range := 4 }
              (tuC2W.maxNamePostfix + 1)) ++ ")")] ∧
        (fullOperands
            { args := [{ type := intT }], retType := intT, range := 4 }
            (tuC2W.maxNamePostfix + 1)).length =
          ({ args := [{ type := intT }], retType := intT,
             range := 4 } : CallExpr).args.length +
            (if ({ args := [{ type := intT }], retType := intT,
                   range := 4 } : CallExpr).retType.isVoidType then 0
             else 1))) ∧
    (handleTranslationUnit 1 tuC2W).edits = [Edit.replaceRange 4 "(0,0)"] :=
  ⟨C2_operand_count 1 tuC2W (by decide) (by decide)
    { args := [{ type := intT }], retType := intT, range := 4 } (by decide),
   by decide⟩

lemma scenarioA_replaceCallExpr (fd : FunctionDecl) (ce : CallExpr)
    (s : RWState)
    (hargs : ce.args =
      [{ type := intT }, { type := intPtrT }, { type := structZT }])
    (hret : ce.retType = intT) :
    replaceCallExpr fd ce s =
      { namePostfix := s.namePostfix + 1,
        allocated := s.allocated ++ [s.namePostfix],
        edits := s.edits
          ++ [Edit.insertBeforeFunc fd.fid
                ("struct Z " ++ getTmpTransName s.namePostfix ++ ";\n")]
          ++ [Edit.replaceRange ce.range
                ("(0,0," ++ getTmpTransName s.namePostfix ++ ",0)")] } := by
  rw [replaceCallExpr_cons_spec _ _ _ (by rw [hargs]; simp)]
  rw [hargs, hret]
  simp [argsEffect, isAggregate, QualType.isUnionType,
    QualType.isStructureType, QualType.isVoidType, intT, intPtrT, structZT,
    retOps, retInserts, retAllocs, retFinalNp, commaJoin, commaTail,
    tmpDeclText, getAsStringInternal, String.append_assoc]
  rfl

/-- C3: for a selected call `foo(i, p, s)` where `foo` returns `int`, `i`
is `int`, `p` is `int *` and `s` has type `struct Z`, the run inserts the
single declaration `struct Z tmp_var_N;` before the enclosing function and
replaces the call's source range with `(0,0,tmp_var_N,0)`, where `N` is one
past the maximum pre-existing temp-name suffix. -/
theorem C3_scenario_a (K : Nat) (tu : TransUnit) (h1 : 1 ≤ K)
    (h2 : K ≤ (allCalls tu.decls).length) (ce : CallExpr) (fd : FunctionDecl)
    (hce : (allCalls tu.decls)[K - 1]? = some ce)
    (hfd : (enclosingFDs tu.decls)[K - 1]? = some fd)
    (hargs : ce.args =
      [{ type := intT }, { type := intPtrT }, { type := structZT }])
    (hret : ce.retType = intT) :
    (handleTranslationUnit K tu).edits =
      [Edit.insertBeforeFunc fd.fid
         ("struct Z " ++ getTmpTransName (tu.maxNamePostfix + 1) ++ ";\n"),
       Edit.replaceRange ce.range
         ("(0,0," ++ getTmpTransName (tu.maxNamePostfix + 1) ++ ",0)")] := by
  obtain ⟨ce', fd', hce', hfd', hout⟩ := handleTranslationUnit_inRange K tu h1 h2
  have hc : ce' = ce := by
    rw [hce] at hce'
    exact (Option.some.inj hce').symm
  have hf : fd' = fd := by
    rw [hfd] at hfd'
    exact (Option.some.inj hfd').symm
  subst hc hf
  rw [hout, scenarioA_replaceCallExpr _ _ _ hargs hret]
  simp

/-- Witness unit for C3: a single `foo(i, p, s)`-shaped call with
`maxNamePostfix = 4`, so the generated temp variable is `tmp_var_5`. -/
def tuC3 : TransUnit :=
  { decls := [TopLevelDecl.funcDef
      { fid := 0,
        body := [{ args := [{ type := intT }, { type := intPtrT },
                            { type := structZT }],
                   retType := intT, range := 11 }] }],
    maxNamePostfix := 4 }

theorem C3_scenario_a_witness :
    (handleTranslationUnit 1 tuC3).edits =
      [Edit.insertBeforeFunc 0
         ("struct Z " ++ getTmpTransName (tuC3.maxNamePostfix + 1) ++ ";\n"),
       Edit.replaceRange 11
         ("(0,0," ++ getTmpTransName (tuC3.maxNamePostfix + 1) ++ ",0)")] :=
  C3_scenario_a 1 tuC3 (by decide) (by decide)
    { args := [{ type := intT }, { type := intPtrT }, { type := structZT }],
      retType := intT, range := 11 }
    { fid := 0,
      body := [{ args := [{ type := intT }, { type := intPtrT },
                          { type := structZT }],
                 retType := intT, range := 11 }] }
    (by decide) (by decide) (by decide) (by decide)

/-- C6: within one run, every allocated temp-name suffix is strictly
greater than the maximum suffix among pre-existing temp-prefixed
identifiers (the counter is seeded one past that maximum and incremented on
every allocation), and no suffix is allocated twice. -/
theorem C6_fresh_name_suffixes (K : Nat) (tu : TransUnit) (h1 : 1 ≤ K)
    (h2 : K ≤ (allCalls tu.decls).length) :
    (∀ n ∈ (handleTranslationUnit K tu).allocated, tu.maxNamePostfix < n) ∧
      (handleTranslationUnit K tu).allocated.Nodup := by
  obtain ⟨ce, fd, hce, hfd, hout⟩ := handleTranslationUnit_inRange K tu h1 h2
  rw [hout]
  by_cases hargs : ce.args = []
  · rw [replaceCallExpr_nil_spec _ _ _ hargs]
    simp
  · rw [replaceCallExpr_cons_spec _ _ _ hargs]
    obtain ⟨hb, hf, hn⟩ :=
      argsEffect_allocs_bounds fd.fid ce.args (tu.maxNamePostfix + 1)
    simp only [List.nil_append]
    constructor
    · intro n hmem
      rw [List.mem_append] at hmem
      rcases hmem with hmem | hmem
      · have := hb n hmem
        omega
      · have := retAllocs_bounds _ _ n hmem
        omega
    · refine hn.append ?_ ?_
      · unfold retAllocs
        by_cases hv : ce.retType.isVoidType = true
        · simp [hv]
        · by_cases ha : isAggregate ce.retType = true <;> simp [hv, ha]
      · intro a ha1 ha2
        have hb' := hb a ha1
        have hr' := retAllocs_bounds _ _ a ha2
        omega

/-- Witness unit for C6: one call with two aggregate arguments and an
aggregate return type, in a unit whose maximum pre-existing temp suffix
is 7; the run allocates suffixes 8, 9 and 10. -/
def tuC6 : TransUnit :=
  { decls := [TopLevelDecl.funcDef
      { fid := 0,
        body := [{ args := [{ type := structZT }, { type := intT },
                            { type := structWT }],
                   retType := structWT, range := 2 }] }],
    maxNamePostfix := 7 }

theorem C6_fresh_name_suffixes_witness :
    ((∀ n ∈ (handleTranslationUnit 1 tuC6).allocated,
        tuC6.maxNamePostfix < n) ∧
      (handleTranslationUnit 1 tuC6).allocated.Nodup) ∧
      (handleTranslationUnit 1 tuC6).allocated = [8, 9, 10] :=
  ⟨C6_fresh_name_suffixes 1 tuC6 (by decide) (by decide), by decide⟩

lemma replaceCallExpr_edits_decomp (fd : FunctionDecl) (ce : CallExpr)
    (s : RWState) :
    ∃ ins txt, (replaceCallExpr fd ce s).edits =
        s.edits ++ ins ++ [Edit.replaceRange ce.range txt] ∧
      ∀ e ∈ ins, ∃ t, e = Edit.insertBeforeFunc fd.fid t := by
  by_cases hargs : ce.args = []
  · rw [replaceCallExpr_nil_spec _ _ _ hargs]
    exact ⟨[], "", by simp, by simp⟩
  · rw [replaceCallExpr_cons_spec _ _ _ hargs]
    refine ⟨(argsEffect fd.fid s.namePostfix ce.args).inserts ++
      retInserts fd.fid ce.retType
        (argsEffect fd.fid s.namePostfix ce.args).finalNp,
      "(" ++ commaJoin ((argsEffect fd.fid s.namePostfix ce.args).ops
        ++ retOps ce.retType
             (argsEffect fd.fid s.namePostfix ce.args).finalNp) ++ ")",
      by simp [List.append_assoc], ?_⟩
    intro e he
    rw [List.mem_append] at he
    rcases he with he | he
    · exact argsEffect_inserts_shape fd.fid ce.args s.namePostfix e he
    · exact retInserts_shape fd.fid ce.retType _ e he

/-- C8: for every in-range target ordinal (with distinct source ranges
across the unit's call expressions), exactly one call expression's source
range is rewritten — the selected one; every other buffer edit is a
declaration insertion before the enclosing function, and no other call
expression's source range is touched by any edit. -/
theorem C8_single_rewrite_frame (K : Nat) (tu : TransUnit) (h1 : 1 ≤ K)
    (h2 : K ≤ (allCalls tu.decls).length)
    (hnd : ((allCalls tu.decls).map CallExpr.range).Nodup) :
    ∃ ce fd, (allCalls tu.decls)[K - 1]? = some ce ∧
      (enclosingFDs tu.decls)[K - 1]? = some fd ∧
      (∃ txt, (handleTranslationUnit K tu).edits.filter Edit.isReplace =
          [Edit.replaceRange ce.range txt]) ∧
      (∀ e ∈ (handleTranslationUnit K tu).edits, e.isReplace = false →
        ∃ t, e = Edit.insertBeforeFunc fd.fid t) ∧
      (∀ c ∈ allCalls tu.decls, c ≠ ce → ∀ t,
        Edit.replaceRange c.range t ∉ (handleTranslationUnit K tu).edits) := by
  obtain ⟨ce, fd, hce, hfd, hout⟩ := handleTranslationUnit_inRange K tu h1 h2
  obtain ⟨ins, txt, hed, hins⟩ := replaceCallExpr_edits_decomp fd ce
    { namePostfix := tu.maxNamePostfix + 1, allocated := [], edits := [] }
  have hcel : ce ∈ allCalls tu.decls := by
    have := List.getElem?_eq_some.mp hce
    obtain ⟨hlt, hg⟩ := this
    rw [← hg]
    exact List.getElem_mem hlt
  rw [hout]
  refine ⟨ce, fd, hce, hfd, ⟨txt, ?_⟩, ?_, ?_⟩
  · rw [hed, List.filter_append, List.filter_append]
    have hin0 : ins.filter Edit.isReplace = [] := by
      rw [List.filter_eq_nil_iff]
      intro e he
      obtain ⟨t, rfl⟩ := hins e he
      simp [Edit.isReplace]
    rw [hin0]
    simp [Edit.isReplace]
  · intro e he hrep
    rw [hed] at he
    simp only [List.nil_append, List.mem_append, List.mem_singleton] at he
    rcases he with he | he
    · exact hins e he
    · rw [he] at hrep
      simp [Edit.isReplace] at hrep
  · intro c hc hne t hmem
    rw [hed] at hmem
    simp only [List.nil_append, List.mem_append, List.mem_singleton] at hmem
    rcases hmem with hmem | hmem
    · obtain ⟨t', heq⟩ := hins _ hmem
      exact absurd heq (by simp)
    · have hr : c.range = ce.range := by
        injection hmem
      exact hne (List.inj_on_of_nodup_map hnd hc hcel hr)

/-- Witness unit for C8: two function definitions with one call each,
distinct source ranges. -/
def tuC8 : TransUnit :=
  { decls := [TopLevelDecl.funcDef
      { fid := 0, body := [{ args := [{ type := intT }], retType := intT,
                             range := 0 }] },
      TopLevelDecl.funcDef
      { fid := 1, body := [{ args := [], retType := voidT, range := 1 }] }],
    maxNamePostfix := 0 }

theorem C8_single_rewrite_frame_witness :
    ∃ ce fd, (allCalls tuC8.decls)[1 - 1]? = some ce ∧
      (enclosingFDs tuC8.decls)[1 - 1]? = some fd ∧
      (∃ txt, (handleTranslationUnit 1 tuC8).edits.filter Edit.isReplace =
          [Edit.replaceRange ce.range txt]) ∧
      (∀ e ∈ (handleTranslationUnit 1 tuC8).edits, e.isReplace = false →
        ∃ t, e = Edit.insertBeforeFunc fd.fid t) ∧
      (∀ c ∈ allCalls tuC8.decls, c ≠ ce → ∀ t,
        Edit.replaceRange c.range t ∉ (handleTranslationUnit 1 tuC8).edits) :=
  C8_single_rewrite_frame 1 tuC8 (by decide) (by decide) (by decide)
